import Mathlib

/-!
Shallow embedding of the ENVITranslator chunking-and-reassembly pipeline
(src/envi_translator/translator.py and the batch endpoint of src/main.py).

Python strings are modelled as lists of characters, Python ints as Lean Int
(arbitrary precision, as in Python), fallible code as Except.  The remote
translation provider is an explicit parameter: a function from the index of
the call (how many provider calls happened before) and the request text to
either a translated string or a provider error (payload Nat, so stubs can
tag individual failures).  Every run also returns the log of provider call
inputs in order, which models the observable sequence of provider
invocations.  time.sleep only delays and has no observable effect on the
computed values, so it is not modelled.
-/

set_option maxHeartbeats 4000000

namespace EnviTranslator

/-- Python strings modelled as lists of characters. -/
abbrev Str := List Char

/-- Characters for which Python str.isspace() is True (also the character
class matched by a regex \s with the default Unicode semantics):
tab through carriage return, the separators 0x1c-0x1f, space, next line,
no-break space, ogham space mark, the en-quad..hair-space block, line and
paragraph separators, narrow no-break space, medium mathematical space and
ideographic space. -/
def pyIsSpace (c : Char) : Bool :=
  let n := c.toNat
  (decide (9 ≤ n) && decide (n ≤ 13)) ||
  (decide (28 ≤ n) && decide (n ≤ 32)) ||
  decide (n = 0x85) || decide (n = 0xa0) || decide (n = 0x1680) ||
  (decide (0x2000 ≤ n) && decide (n ≤ 0x200a)) ||
  decide (n = 0x2028) || decide (n = 0x2029) ||
  decide (n = 0x202f) || decide (n = 0x205f) || decide (n = 0x3000)

/-- The sentence-terminal punctuation of the regex [\.!?…。！？]
in _chunk_text. -/
def isSentTerm (c : Char) : Bool :=
  c = '.' || c = '!' || c = '?' || c = '…' || c = '。' || c = '！' || c = '？'

/-- Line boundary characters of Python str.splitlines: \n, \v, \f, \r,
file/group/record separator, next line, line separator, paragraph
separator.  \r\n is treated as a single boundary by splitlines itself. -/
def isLineBoundary (c : Char) : Bool :=
  let n := c.toNat
  decide (n = 10) || decide (n = 11) || decide (n = 12) || decide (n = 13) ||
  decide (n = 28) || decide (n = 29) || decide (n = 30) ||
  decide (n = 0x85) || decide (n = 0x2028) || decide (n = 0x2029)

/-- Python str.strip() with no argument: drop whitespace from both ends. -/
def pyStrip (s : Str) : Str :=
  ((s.dropWhile pyIsSpace).reverse.dropWhile pyIsSpace).reverse

/-- Scanner of Python text.splitlines(keepends=True): acc holds the
characters of the current line in reverse; a \r immediately followed by
\n ends the line with both characters. -/
def pySplitlinesGo : List Char → List Char → List (List Char)
  | [], acc => if acc = [] then [] else [acc.reverse]
  | '\r' :: '\n' :: rest, acc =>
    (acc.reverse ++ ['\r', '\n']) :: pySplitlinesGo rest []
  | c :: rest, acc =>
    if c = '\r' then (acc.reverse ++ ['\r']) :: pySplitlinesGo rest []
    else if isLineBoundary c then (acc.reverse ++ [c]) :: pySplitlinesGo rest []
    else pySplitlinesGo rest (c :: acc)

/-- Python text.splitlines(keepends=True), used on line 43 of translator.py. -/
def pySplitlines (s : Str) : List Str := pySplitlinesGo s []

/-- Scanner of re.split of the pattern (?<=[\.!?…。！？])\s+ over the text:
a maximal whitespace run whose first character is directly preceded by a
sentence terminator is a separator and is discarded; acc holds the current
segment in reverse, skipping is true while consuming a separator run. -/
def reSentGo (s : List Char) (acc : List Char) (skipping : Bool) :
    List (List Char) :=
  match s with
  | [] => if skipping then [[]] else [acc.reverse]
  | c :: rest =>
    if skipping then
      if pyIsSpace c then reSentGo rest [] true
      else reSentGo rest [c] false
    else
      if pyIsSpace c && (match acc with
                         | t :: _ => isSentTerm t
                         | [] => false) then
        acc.reverse :: reSentGo rest [] true
      else reSentGo rest (c :: acc) false

/-- re.split of the sentence-boundary pattern on line 114 of translator.py. -/
def reSentSplit (s : Str) : List Str := reSentGo s [] false

/-- Scanner of Python ch.split of a single space: every space is a
separator, consecutive spaces yield empty fields. -/
def pySplitSpaceGo (s : List Char) (acc : List Char) : List (List Char) :=
  match s with
  | [] => [acc.reverse]
  | c :: rest =>
    if c = ' ' then acc.reverse :: pySplitSpaceGo rest []
    else pySplitSpaceGo rest (c :: acc)

/-- Python ch.split of a single space, used on line 136 of translator.py. -/
def pySplitSpace (s : Str) : List Str := pySplitSpaceGo s []

/-- Error universe of the embedding.  The code-derived definitions below
produce only providerErr (a provider exception re-raised by
_retry_translate) and valueErr (the ValueError that Python range raises on
a zero step).  The remaining constructors are vocabulary taken from the
spec error model so that statements about them can be expressed:
exhaustedRetries would wrap a provider failure, configErr would reject an
invalid configuration.  No code path builds them. -/
inductive Err where
  | providerErr (payload : Nat)
  | valueErr
  | exhaustedRetries (payload : Nat)
  | configErr
  deriving DecidableEq, Repr

deriving instance DecidableEq for Except

/-- A provider: the index of the call (number of earlier provider calls)
and the request text give a translation or a provider error payload. -/
abbrev Provider := Nat → Str → Except Nat Str

/-- Line 118 of translator.py: s_with_space is s plus one space unless s
already ends with a newline. -/
def sentWithSpace (s : Str) : Str :=
  if s.getLast? = some '\n' then s else s ++ [' ']

/-- Sentence pass of _chunk_text (lines 115-128): greedily pack sentences
into buf, flushing buf into chunks when the next sentence does not fit. -/
def pass1Go (sentences : List Str) (maxChars : Int) (buf : Str)
    (chunks : List Str) : List Str :=
  match sentences with
  | [] => if buf = [] then chunks else chunks ++ [buf]
  | s :: rest =>
    let sws := sentWithSpace s
    if buf = [] then pass1Go rest maxChars sws chunks
    else if (buf.length + sws.length : Int) ≤ maxChars then
      pass1Go rest maxChars (buf ++ sws) chunks
    else
      pass1Go rest maxChars sws (if buf = [] then chunks else chunks ++ [buf])

/-- Inner loop of the word pass (lines 136-148): repack the words of one
oversized chunk, appending a space to each word. -/
def wordPackGo (words : List Str) (maxChars : Int) (cur : Str)
    (refined : List Str) : List Str :=
  match words with
  | [] => if cur = [] then refined else refined ++ [cur]
  | w :: rest =>
    let seg := w ++ [' ']
    if cur = [] then wordPackGo rest maxChars seg refined
    else if (cur.length + seg.length : Int) ≤ maxChars then
      wordPackGo rest maxChars (cur ++ seg) refined
    else wordPackGo rest maxChars seg (refined ++ [cur])

/-- Word pass of _chunk_text (lines 131-148): chunks at or under the limit
pass through, oversized chunks are re-split on single spaces. -/
def pass2Go (chunks : List Str) (maxChars : Int) (refined : List Str) :
    List Str :=
  match chunks with
  | [] => refined
  | ch :: rest =>
    if (ch.length : Int) ≤ maxChars then pass2Go rest maxChars (refined ++ [ch])
    else pass2Go rest maxChars (wordPackGo (pySplitSpace ch) maxChars [] refined)

/-- Python range(i, stop, step) for a nonnegative step, with fuel: one fuel
unit per produced element.  Fuel stop is enough whenever step is at least
one. -/
def rangeGo (i stop step : Nat) (fuel : Nat) : List Nat :=
  match fuel with
  | 0 => []
  | fuel + 1 => if i < stop then i :: rangeGo (i + step) stop step fuel else []

/-- The slice loop of the hard-cut pass (lines 156-157): ch sliced at
boundaries range(0, len(ch), maxChars).  A negative maxChars gives the
empty range, exactly as Python range does. -/
def hardSlices (ch : Str) (maxChars : Int) : List Str :=
  if maxChars < 0 then []
  else (rangeGo 0 ch.length maxChars.toNat ch.length).map
    (fun i => (ch.drop i).take maxChars.toNat)

/-- Hard-cut pass of _chunk_text (lines 151-158).  Python range raises
ValueError when the step is zero, which aborts the whole call. -/
def pass3Go (refined : List Str) (maxChars : Int) (final : List Str) :
    Except Err (List Str) :=
  match refined with
  | [] => .ok final
  | ch :: rest =>
    if (ch.length : Int) ≤ maxChars then pass3Go rest maxChars (final ++ [ch])
    else if maxChars = 0 then .error .valueErr
    else pass3Go rest maxChars (final ++ hardSlices ch maxChars)

/-- ENVITranslator._chunk_text (lines 103-158): passthrough when the text
already fits, otherwise the sentence, word and hard-cut passes in order. -/
def chunkText (text : Str) (maxChars : Int) : Except Err (List Str) :=
  if (text.length : Int) ≤ maxChars then .ok [text]
  else
    pass3Go (pass2Go (pass1Go (reSentSplit text) maxChars [] []) maxChars [])
      maxChars []

/-- The chunk list of chunkText, empty when chunkText raises. -/
def chunksOf (text : Str) (maxChars : Int) : List Str :=
  ((chunkText text maxChars).toOption).getD []

/-- Loop of ENVITranslator._retry_translate (lines 92-101).  remaining is
how many retries are still allowed; the Python loop raises the caught
exception itself once attempt exceeds retries.  The log records every
provider call input; the provider sees the current log length as its call
index. -/
def retryGo (prov : Provider) (text : Str) (log : List Str)
    (remaining : Nat) : Except Err Str × List Str :=
  match prov log.length text with
  | .ok r => (.ok r, log ++ [text])
  | .error e =>
    match remaining with
    | 0 => (.error (.providerErr e), log ++ [text])
    | r + 1 => retryGo prov text (log ++ [text]) r

/-- ENVITranslator._retry_translate: with retries r the loop makes at most
max(r, 0) + 1 provider calls, Python semantics of attempt > retries. -/
def retryTranslate (prov : Provider) (log : List Str) (text : Str)
    (retries : Int) : Except Err Str × List Str :=
  retryGo prov text log retries.toNat

/-- The per-line chunk loop of translate_text (lines 50-56): translate each
chunk and join the translations. -/
def translateChunks (prov : Provider) (chunks : List Str) (retries : Int)
    (log : List Str) (acc : Str) : Except Err Str × List Str :=
  match chunks with
  | [] => (.ok acc, log)
  | c :: rest =>
    match retryTranslate prov log c retries with
    | (.ok t, log2) => translateChunks prov rest retries log2 (acc ++ t)
    | (.error e, log2) => (.error e, log2)

/-- The line loop of translate_text (lines 44-57): lines whose strip() is
empty pass through verbatim without any provider call, other lines are
chunked and translated; acc is the join of the output lines so far. -/
def translateLines (prov : Provider) (lines : List Str) (maxChars : Int)
    (retries : Int) (log : List Str) (acc : Str) : Except Err Str × List Str :=
  match lines with
  | [] => (.ok acc, log)
  | line :: rest =>
    if pyStrip line = [] then
      translateLines prov rest maxChars retries log (acc ++ line)
    else
      match chunkText line maxChars with
      | .error e => (.error e, log)
      | .ok chunks =>
        match translateChunks prov chunks retries log [] with
        | (.ok tline, log2) =>
          translateLines prov rest maxChars retries log2 (acc ++ tline)
        | (.error e, log2) => (.error e, log2)

/-- ENVITranslator.translate_text (lines 36-57), with an explicit starting
log so that batch runs can thread one shared provider-call log. -/
def translateTextFrom (prov : Provider) (log : List Str) (text : Str)
    (preserveFormat : Bool) (maxChars retries : Int) :
    Except Err Str × List Str :=
  if text = [] then (.ok [], log)
  else if preserveFormat = false then retryTranslate prov log text retries
  else translateLines prov (pySplitlines text) maxChars retries log []

/-- ENVITranslator.translate_text as called from the outside. -/
def translateText (prov : Provider) (text : Str) (preserveFormat : Bool)
    (maxChars retries : Int) : Except Err Str × List Str :=
  translateTextFrom prov [] text preserveFormat maxChars retries

/-- Loop of the translate_batch endpoint (main.py lines 135-151): items in
order, outputs appended in order; the whole loop sits inside one
try/except, so the first failing item aborts the batch. -/
def translateBatchGo (prov : Provider) (items : List Str)
    (preserveFormat : Bool) (maxChars retries : Int) (log : List Str)
    (outs : List Str) : Except Err (List Str) × List Str :=
  match items with
  | [] => (.ok outs, log)
  | t :: rest =>
    match translateTextFrom prov log t preserveFormat maxChars retries with
    | (.ok out, log2) =>
      translateBatchGo prov rest preserveFormat maxChars retries log2
        (outs ++ [out])
    | (.error e, log2) => (.error e, log2)

/-- The translate_batch endpoint of main.py. -/
def translateBatch (prov : Provider) (items : List Str)
    (preserveFormat : Bool) (maxChars retries : Int) :
    Except Err (List Str) × List Str :=
  translateBatchGo prov items preserveFormat maxChars retries [] []

/-- A provider that computes a pure function of the request text and never
fails, regardless of the call index. -/
def pureOk (f : Str → Str) : Provider := fun _ s => .ok (f s)

/-- The identity provider: every chunk translates to itself. -/
def idProv : Provider := pureOk (fun s => s)

/-- A provider stub that raises on every call. -/
def raiseProv : Provider := fun _ _ => .error 0

/-- A provider stub that fails the first k calls (payload the call index)
and succeeds afterwards, echoing the request. -/
def stubK (k : Nat) : Provider :=
  fun i s => if i < k then .error i else .ok s

/-- Python str.lower restricted to ASCII letters.  Apart from the Kelvin
sign, which lowercases to the letter k, no character outside A-Z has a
Python lowercase form inside the letters of the word auto, so the check on
line 181 behaves identically under this restriction. -/
def pyLowerChar (c : Char) : Char :=
  if decide ('A' ≤ c) && decide (c ≤ 'Z') then Char.ofNat (c.toNat + 32)
  else c

/-- Python str.lower applied characterwise. -/
def pyLower (s : Str) : Str := s.map pyLowerChar

/-- Lookup in a Python dict built from an association list in order: a
later binding of the same key overwrites an earlier one. -/
def dictGet (d : List (Str × Str)) (k : Str) : Option Str :=
  match d with
  | [] => none
  | (k2, v) :: rest =>
    match dictGet rest k with
    | some v2 => some v2
    | none => if k2 = k then some v else none

/-- The literal string auto. -/
def strAuto : Str := "auto".toList

/-- Line 194 of translator.py: key = lang.lower().strip().replace of
underscore by hyphen. -/
def normKey (lang : Str) : Str :=
  (pyStrip (pyLower lang)).map (fun c => if c = '_' then '-' else c)

/-- The alias dict on lines 205-210 of translator.py. -/
def aliasTable : List (Str × Str) :=
  [("zh-cn".toList, "zh-CN".toList), ("zh-tw".toList, "zh-TW".toList),
   ("pt-br".toList, "pt".toList), ("pt-pt".toList, "pt".toList)]

/-- ENVITranslator._normalize_lang (lines 171-215), parameterized by the
provider language catalog (the name-to-code mapping that
GoogleTranslator.get_supported_languages returns; when that call raises,
the code uses the empty mapping, which is the parameter value []). -/
def normalizeLang (mapping : List (Str × Str)) (lang : Str) : Str :=
  if lang = [] then strAuto
  else if pyLower lang = strAuto then strAuto
  else
    let nameToCode := mapping.map (fun p => (pyLower p.1, p.2))
    let codes := mapping.map (fun p => (pyLower p.2, p.2))
    let key := normKey lang
    match dictGet codes key with
    | some c => c
    | none =>
      match dictGet nameToCode key with
      | some c => c
      | none =>
        match dictGet aliasTable key with
        | some c => c
        | none => lang

/-- ENVITranslator.__init__ (lines 13-18): both language identifiers are
normalized; the construction of the external GoogleTranslator object is
outside the embedding. -/
def translatorInit (mapping : List (Str × Str)) (source target : Str) :
    Str × Str :=
  (normalizeLang mapping source, normalizeLang mapping target)

/-- Modelled from the spec, for comparison with the code: section 4.4 with
preserveFormat false says the whole document is run through the Segmenter
with maxChars, each chunk is translated via the Retrying Invoker and the
chunk results are concatenated in order.  The code (translator.py lines
39-40) instead sends the whole document in one provider call; this
definition exists to state that divergence. -/
def specNoFormatTranslate (prov : Provider) (text : Str)
    (maxChars retries : Int) : Except Err Str × List Str :=
  if text = [] then (.ok [], [])
  else
    match chunkText text maxChars with
    | .error e => (.error e, [])
    | .ok chunks => translateChunks prov chunks retries [] []

/-- What translate_text computes for a document when every chunk list
comes out empty: blank lines survive, content lines collapse to nothing.
Used to state the behavior at a negative maxChars. -/
def blankSquash (lines : List Str) : Str :=
  (lines.map (fun l => if pyStrip l = [] then l else [])).flatten

/-! Helper lemmas about the embedded operations. -/

/-- Splitlines never loses or duplicates characters: flattening the lines
of the scanner state gives back the reversed accumulator and the rest. -/
theorem pySplitlinesGo_flatten :
    ∀ (s acc : List Char), (pySplitlinesGo s acc).flatten = acc.reverse ++ s := by
  intro s acc
  induction s, acc using pySplitlinesGo.induct <;> simp_all [pySplitlinesGo]

/-- Flattening the keepends splitlines of a document gives the document. -/
theorem pySplitlines_flatten (s : Str) : (pySplitlines s).flatten = s := by
  simpa using pySplitlinesGo_flatten s []

/-- The passthrough branch of _chunk_text: text already within the limit
is returned whole. -/
theorem chunkText_small {text : Str} {maxChars : Int}
    (h : (text.length : Int) ≤ maxChars) :
    chunkText text maxChars = .ok [text] := by
  simp [chunkText, h]

/-- Every slice of the hard-cut pass has length at most maxChars when
maxChars is at least one. -/
theorem hardSlices_len {maxChars : Int} (h1 : 1 ≤ maxChars) (ch : Str) :
    ∀ c ∈ hardSlices ch maxChars, (c.length : Int) ≤ maxChars := by
  intro c hc
  have hneg : ¬ maxChars < 0 := by omega
  simp only [hardSlices, if_neg hneg, List.mem_map] at hc
  obtain ⟨i, _, rfl⟩ := hc
  have hlen : (((ch.drop i).take maxChars.toNat).length : Nat) ≤ maxChars.toNat := by
    simp [List.length_take]
  omega

/-- The hard-cut pass succeeds for a positive maxChars and bounds every
chunk it emits, given that the chunks carried in so far are bounded. -/
theorem pass3Go_bound {maxChars : Int} (h1 : 1 ≤ maxChars) :
    ∀ (refined final : List Str), (∀ c ∈ final, (c.length : Int) ≤ maxChars) →
      ∃ cs, pass3Go refined maxChars final = .ok cs ∧
        ∀ c ∈ cs, (c.length : Int) ≤ maxChars := by
  intro refined
  induction refined with
  | nil => intro final h; exact ⟨final, by simp [pass3Go], h⟩
  | cons ch rest ih =>
    intro final h
    by_cases hch : (ch.length : Int) ≤ maxChars
    · obtain ⟨cs, hcs, hb⟩ := ih (final ++ [ch]) (by
        intro c hc
        rcases List.mem_append.mp hc with hc | hc
        · exact h c hc
        · simp at hc; subst hc; exact hch)
      exact ⟨cs, by simp [pass3Go, hch, hcs], hb⟩
    · have h0 : ¬ maxChars = 0 := by omega
      obtain ⟨cs, hcs, hb⟩ := ih (final ++ hardSlices ch maxChars) (by
        intro c hc
        rcases List.mem_append.mp hc with hc | hc
        · exact h c hc
        · exact hardSlices_len h1 ch c hc)
      exact ⟨cs, by simp [pass3Go, hch, h0, hcs], hb⟩

/-- With a positive maxChars, _chunk_text never raises. -/
theorem chunkText_ok {maxChars : Int} (h1 : 1 ≤ maxChars) (text : Str) :
    ∃ cs, chunkText text maxChars = .ok cs := by
  by_cases h : (text.length : Int) ≤ maxChars
  · exact ⟨[text], chunkText_small h⟩
  · obtain ⟨cs, hcs, _⟩ := pass3Go_bound h1
      (pass2Go (pass1Go (reSentSplit text) maxChars [] []) maxChars []) []
      (by simp)
    exact ⟨cs, by simp [chunkText, h, hcs]⟩

/-- With a negative maxChars every hard-cut slice list is empty, so the
whole pass returns only what was carried in. -/
theorem pass3Go_neg {maxChars : Int} (hneg : maxChars < 0) :
    ∀ (refined final : List Str), pass3Go refined maxChars final = .ok final := by
  intro refined
  induction refined with
  | nil => intro final; simp [pass3Go]
  | cons ch rest ih =>
    intro final
    have hch : ¬ ((ch.length : Int) ≤ maxChars) := by
      have : (0 : Int) ≤ (ch.length : Int) := by positivity
      omega
    have h0 : ¬ maxChars = 0 := by omega
    simp [pass3Go, hch, h0, hardSlices, hneg, ih]

/-- With a negative maxChars, _chunk_text silently returns no chunks at
all, whatever the text. -/
theorem chunkText_neg {maxChars : Int} (hneg : maxChars < 0) (text : Str) :
    chunkText text maxChars = .ok [] := by
  have h : ¬ ((text.length : Int) ≤ maxChars) := by
    have : (0 : Int) ≤ (text.length : Int) := by positivity
    omega
  simp [chunkText, h, pass3Go_neg hneg]

/-- Closed form of the retry loop against the stub that fails its first k
calls: with the current call index log.length, either the next call
already succeeds, or the remaining retry budget runs out first, or the
loop reaches the k-th call and succeeds. -/
theorem retryGo_stubK (k : Nat) (text : Str) :
    ∀ (rem : Nat) (log : List Str),
      retryGo (stubK k) text log rem =
        if k ≤ log.length then (.ok text, log ++ [text])
        else if log.length + rem < k then
          (.error (.providerErr (log.length + rem)),
           log ++ List.replicate (rem + 1) text)
        else (.ok text, log ++ List.replicate (k - log.length + 1) text) := by
  intro rem
  induction rem with
  | zero =>
    intro log
    by_cases h : k ≤ log.length
    · have : ¬ log.length < k := by omega
      simp [retryGo, stubK, this, h]
    · have hlt : log.length < k := by omega
      simp [retryGo, stubK, hlt, h, show log.length + 0 < k by omega]
  | succ rem ih =>
    intro log
    by_cases h : k ≤ log.length
    · have : ¬ log.length < k := by omega
      simp [retryGo, stubK, this, h]
    · have hlt : log.length < k := by omega
      rw [retryGo]
      simp only [stubK, if_pos hlt]
      rw [ih (log ++ [text])]
      simp only [List.length_append, List.length_cons, List.length_nil]
      by_cases h2 : k ≤ log.length + 1
      · have hk : k = log.length + 1 := by omega
        have : ¬ (log.length + (rem + 1) < k) := by omega
        simp [h, h2, this, hk, List.append_assoc, List.replicate_succ]
      · by_cases h3 : log.length + 1 + rem < k
        · have h4 : log.length + (rem + 1) < k := by omega
          simp [h, h2, h3, h4, List.append_assoc, List.replicate_succ]
          omega
        · have h4 : ¬ (log.length + (rem + 1) < k) := by omega
          have h5 : k - (log.length + 1) + 1 = k - log.length := by omega
          have h6 : k - log.length + 1 = (k - log.length - 1 + 1) + 1 := by omega
          have h7 : k - log.length - 1 + 1 = k - log.length := by omega
          simp [h, h2, h3, h4, h5, List.append_assoc, h6, h7,
            List.replicate_succ]

/-- A provider that is a pure total function makes the retry loop succeed
on the first call, whatever the retry budget. -/
theorem retryGo_pureOk (f : Str → Str) (text : Str) (log : List Str)
    (rem : Nat) :
    retryGo (pureOk f) text log rem = (.ok (f text), log ++ [text]) := by
  simp [retryGo, pureOk]

/-- Chunk loop under a pure total provider: every chunk is translated in
one call, outputs are joined in order and the log grows by the chunks. -/
theorem translateChunks_pureOk (f : Str → Str) (retries : Int) :
    ∀ (chunks log : List Str) (acc : Str),
      translateChunks (pureOk f) chunks retries log acc =
        (.ok (acc ++ (chunks.map f).flatten), log ++ chunks) := by
  intro chunks
  induction chunks with
  | nil => intro log acc; simp [translateChunks]
  | cons c rest ih =>
    intro log acc
    simp [translateChunks, retryTranslate, retryGo_pureOk, ih,
      List.append_assoc]

/-- A document whose lines are all whitespace-only passes through the line
loop verbatim with no provider call at all. -/
theorem translateLines_blankDoc (prov : Provider) (maxChars retries : Int) :
    ∀ (lines log : List Str) (acc : Str),
      (∀ L ∈ lines, pyStrip L = []) →
      translateLines prov lines maxChars retries log acc =
        (.ok (acc ++ lines.flatten), log) := by
  intro lines
  induction lines with
  | nil => intro log acc _; simp [translateLines]
  | cons line rest ih =>
    intro log acc h
    have hline : pyStrip line = [] := h line (by simp)
    have hrest : ∀ L ∈ rest, pyStrip L = [] := fun L hL => h L (by simp [hL])
    simp [translateLines, hline, ih _ _ hrest, List.append_assoc]

/-- With a negative maxChars the line loop keeps blank lines and erases
every content line, calling the provider zero times. -/
theorem translateLines_neg (prov : Provider) {maxChars : Int}
    (hneg : maxChars < 0) (retries : Int) :
    ∀ (lines log : List Str) (acc : Str),
      translateLines prov lines maxChars retries log acc =
        (.ok (acc ++ blankSquash lines), log) := by
  intro lines
  induction lines with
  | nil => intro log acc; simp [translateLines, blankSquash]
  | cons line rest ih =>
    intro log acc
    by_cases hline : pyStrip line = []
    · simp [translateLines, hline, ih, blankSquash, List.append_assoc]
    · simp [translateLines, hline, chunkText_neg hneg, translateChunks, ih,
        blankSquash]

/-- Line loop under the identity provider when every line fits within
maxChars: each content line is a single passthrough chunk translated to
itself, so the output is the join of the lines. -/
theorem translateLines_id (maxChars retries : Int) :
    ∀ (lines log : List Str) (acc : Str),
      (∀ L ∈ lines, (L.length : Int) ≤ maxChars) →
      (translateLines idProv lines maxChars retries log acc).1 =
        .ok (acc ++ lines.flatten) := by
  intro lines
  induction lines with
  | nil => intro log acc _; simp [translateLines]
  | cons line rest ih =>
    intro log acc h
    have hline := h line (by simp)
    have hrest : ∀ L ∈ rest, (L.length : Int) ≤ maxChars :=
      fun L hL => h L (by simp [hL])
    by_cases hb : pyStrip line = []
    · simp [translateLines, hb, ih _ _ hrest, List.append_assoc]
    · have h2 := ih (log ++ [line]) (acc ++ line) hrest
      simp only [idProv] at h2
      simp [translateLines, hb, chunkText_small hline, idProv,
        translateChunks_pureOk, h2, List.append_assoc]

/-! Claim theorems. -/

/-- C1 counterexample: with the identity provider, preserve_format true
and maxChars 4 (which is at least 1), the document "ab. cd." translates to
"ab. cd. " with an extra trailing space, so translate_text does not return
the document exactly. -/
theorem translate_text_roundtrip_counterexample :
    (translateText idProv "ab. cd.".toList true 4 0).1 =
      .ok "ab. cd. ".toList ∧
    (translateText idProv "ab. cd.".toList true 4 0).1 ≠
      .ok "ab. cd.".toList := by
  decide

/-- C1 (amended): with the identity provider and preserve_format true,
translate_text returns the document exactly provided every line of the
document already fits within maxChars (the chunk passthrough case); for
lines longer than maxChars the segmenter inserts extra spaces, so exact
reconstruction is not guaranteed for arbitrary maxChars ≥ 1. -/
theorem translate_text_roundtrip_short_lines (text : Str)
    (maxChars retries : Int)
    (h : ∀ L ∈ pySplitlines text, (L.length : Int) ≤ maxChars) :
    (translateText idProv text true maxChars retries).1 = .ok text := by
  by_cases ht : text = []
  · simp [translateText, translateTextFrom, ht]
  · have h2 := translateLines_id maxChars retries (pySplitlines text) [] [] h
    simp [translateText, translateTextFrom, ht, h2, pySplitlines_flatten]

/-- C1 witness: a three-line document whose lines all fit within the
limit round-trips exactly under the identity provider. -/
theorem translate_text_roundtrip_short_lines_witness :
    (translateText idProv "hi\n\nyo".toList true 10 3).1 =
      .ok "hi\n\nyo".toList :=
  translate_text_roundtrip_short_lines "hi\n\nyo".toList 10 3 (by decide)

/-- C2: for maxChars ≥ 1, a text already within the limit is returned
as the single-element passthrough, and otherwise _chunk_text succeeds and
every emitted chunk has length at most maxChars. -/
theorem chunk_text_size_bound (s : Str) (maxChars : Int) (h1 : 1 ≤ maxChars) :
    (((s.length : Int) ≤ maxChars → chunkText s maxChars = .ok [s]) ∧
     (¬ ((s.length : Int) ≤ maxChars) →
       (chunkText s maxChars).isOk = true ∧
       ∀ c ∈ chunksOf s maxChars, (c.length : Int) ≤ maxChars)) := by
  constructor
  · exact fun h => chunkText_small h
  · intro h
    obtain ⟨cs, hcs, hb⟩ := pass3Go_bound h1
      (pass2Go (pass1Go (reSentSplit s) maxChars [] []) maxChars []) []
      (by simp)
    have hct : chunkText s maxChars = .ok cs := by simp [chunkText, h, hcs]
    constructor
    · rw [hct]; rfl
    · simpa [chunksOf, hct, Except.toOption] using hb

/-- C2 witness: the three-character text abc at maxChars 2 is over the
limit; chunking succeeds and every chunk fits in 2 characters. -/
theorem chunk_text_size_bound_witness :
    (chunkText "abc".toList 2).isOk = true ∧
    ∀ c ∈ chunksOf "abc".toList 2, (c.length : Int) ≤ 2 :=
  (chunk_text_size_bound "abc".toList 2 (by decide)).2 (by decide)

/-- C3 counterexample: with preserve_format false the code makes a single
provider call on the whole document instead of segmenting it: under the
identity provider the code returns "abcde" after one call with the whole
text, while the spec-modelled segment-then-concatenate pipeline returns
"abcde  " after four chunk calls. -/
theorem translate_text_no_preserve_counterexample :
    translateText idProv "abcde".toList false 2 0 ≠
      specNoFormatTranslate idProv "abcde".toList 2 0 ∧
    translateText idProv "abcde".toList false 2 0 =
      (.ok "abcde".toList, ["abcde".toList]) ∧
    (specNoFormatTranslate idProv "abcde".toList 2 0).1 =
      .ok "abcde  ".toList := by
  decide

/-- C3 (amended): for every non-empty text and preserve_format false,
translate_text sends the whole document to the provider in exactly one
call (via the retrying invoker) and returns that single translation;
no segmentation by maxChars takes place. -/
theorem translate_text_no_preserve_single_call (f : Str → Str) (text : Str)
    (maxChars retries : Int) (h : text ≠ []) :
    translateText (pureOk f) text false maxChars retries =
      (.ok (f text), [text]) := by
  simp [translateText, translateTextFrom, h, retryTranslate, retryGo_pureOk]

/-- C3 witness: a two-character text with preserve_format false is
translated by one whole-text provider call. -/
theorem translate_text_no_preserve_single_call_witness :
    translateText (pureOk (fun s => s)) "ab".toList false 1 3 =
      (.ok "ab".toList, ["ab".toList]) :=
  translate_text_no_preserve_single_call (fun s => s) "ab".toList 1 3
    (by decide)

/-- C4 counterexample: with a stub failing the first 2 calls and
retries = 1, _retry_translate re-raises the provider error of the last
failed call itself (payload 1, the index of the second call); the raised
failure is the bare provider error, not an ExhaustedRetriesError wrapping
it. -/
theorem retry_translate_error_not_wrapped :
    (retryTranslate (stubK 2) [] ['x'] 1).1 = .error (.providerErr 1) ∧
    (retryTranslate (stubK 2) [] ['x'] 1).1 ≠
      .error (.exhaustedRetries 1) := by
  decide

/-- C4 (amended): with a stub failing the first k calls then succeeding,
retries ≥ k makes _retry_translate succeed after exactly k + 1
invocations; retries < k makes it re-raise the last provider failure
unchanged (not an ExhaustedRetriesError wrapper, which the code never
constructs) after exactly retries + 1 invocations. -/
theorem retry_translate_counting (chunk : Str) (k : Nat) (retries : Int)
    (h0 : 0 ≤ retries) :
    (((k : Int) ≤ retries →
      retryTranslate (stubK k) [] chunk retries =
        (.ok chunk, List.replicate (k + 1) chunk)) ∧
     (retries < (k : Int) →
      retryTranslate (stubK k) [] chunk retries =
        (.error (.providerErr retries.toNat),
         List.replicate (retries.toNat + 1) chunk))) := by
  have hbase := retryGo_stubK k chunk retries.toNat []
  constructor
  · intro hk
    rw [retryTranslate, hbase]
    by_cases hk0 : k = 0
    · subst hk0; simp
    · have h1 : ¬ (k ≤ List.length ([] : List Str)) := by
        simp only [List.length_nil]; omega
      have h2 : ¬ (List.length ([] : List Str) + retries.toNat < k) := by
        simp only [List.length_nil]; omega
      rw [if_neg h1, if_neg h2]
      simp only [List.length_nil, Nat.sub_zero, List.nil_append]
  · intro hk
    rw [retryTranslate, hbase]
    have h1 : ¬ (k ≤ List.length ([] : List Str)) := by
      simp only [List.length_nil]; omega
    have h2 : List.length ([] : List Str) + retries.toNat < k := by
      simp only [List.length_nil]; omega
    rw [if_neg h1, if_pos h2]
    simp only [List.length_nil, Nat.zero_add, List.nil_append]

/-- C4 witness: retries 5 against 2 initial failures succeeds in 3 calls;
retries 1 against 3 initial failures raises the second call's provider
error after 2 calls. -/
theorem retry_translate_counting_witness :
    retryTranslate (stubK 2) [] ['x'] 5 =
      (.ok ['x'], List.replicate 3 ['x']) ∧
    retryTranslate (stubK 3) [] ['x'] 1 =
      (.error (.providerErr 1), List.replicate 2 ['x']) :=
  ⟨(retry_translate_counting ['x'] 2 5 (by decide)).1 (by decide),
   (retry_translate_counting ['x'] 3 1 (by decide)).2 (by decide)⟩

/-- C5: a whitespace-only line passes through the line loop verbatim at
its position with no provider interaction, and a document consisting only
of whitespace lines is returned unchanged with an empty provider-call log
(zero invocations), whatever the provider. -/
theorem blank_line_passthrough (prov : Provider) (maxChars retries : Int) :
    ((∀ (line : Str) (rest log : List Str) (acc : Str),
      pyStrip line = [] →
      translateLines prov (line :: rest) maxChars retries log acc =
        translateLines prov rest maxChars retries log (acc ++ line)) ∧
     (∀ text : Str, (∀ L ∈ pySplitlines text, pyStrip L = []) →
      translateText prov text true maxChars retries = (.ok text, []))) := by
  constructor
  · intro line rest log acc hb
    simp [translateLines, hb]
  · intro text hb
    by_cases ht : text = []
    · simp [translateText, translateTextFrom, ht]
    · have h2 := translateLines_blankDoc prov maxChars retries
        (pySplitlines text) [] [] hb
      simp [translateText, translateTextFrom, ht, h2, pySplitlines_flatten]

/-- C5 witness: a document of three all-whitespace lines is returned
unchanged with zero provider invocations, even under a provider stub that
raises on any call. -/
theorem blank_line_passthrough_witness :
    translateText raiseProv " \n\n ".toList true 5 0 =
      (.ok " \n\n ".toList, []) :=
  (blank_line_passthrough raiseProv 5 0).2 " \n\n ".toList (by decide)

/-- C6 counterexample: an invalid configuration is not rejected: with
maxChars -1 the call returns ok with the content silently erased and zero
provider calls (no ConfigurationError), and with maxChars 0 it raises the
ValueError coming from range() inside the hard-cut pass rather than a
pre-validation ConfigurationError. -/
theorem config_not_rejected_counterexample :
    translateText raiseProv "ab".toList true (-1) 3 = (.ok [], []) ∧
    translateText raiseProv "ab".toList true 0 3 = (.error .valueErr, []) ∧
    translateText raiseProv "ab".toList true (-1) 3 ≠ (.error .configErr, []) := by
  decide

/-- C6 (amended): the core performs no configuration validation.  A call
with maxChars < 0 is not rejected: segmentation discards every chunk, so
each content line translates to the empty string with zero provider calls
and the call returns ok; segmentation terminates for every maxChars (the
embedding is total), it merely misbehaves. -/
theorem no_config_validation_negative_max_chars (prov : Provider)
    (text : Str) (retries maxChars : Int) (h : maxChars < 0) :
    translateText prov text true maxChars retries =
      (.ok (blankSquash (pySplitlines text)), []) ∧
    (∀ line : Str, chunkText line maxChars = .ok []) := by
  constructor
  · by_cases ht : text = []
    · simp [translateText, translateTextFrom, ht, pySplitlines,
        pySplitlinesGo, blankSquash]
    · have h2 := translateLines_neg prov h retries (pySplitlines text) [] []
      simp [translateText, translateTextFrom, ht, h2]
  · exact fun line => chunkText_neg h line

/-- C6 witness: translating "ab" with maxChars -1 under the raising
provider returns ok with empty output and zero provider calls. -/
theorem no_config_validation_negative_max_chars_witness :
    translateText raiseProv "ab".toList true (-1) 3 = (.ok [], []) :=
  ((no_config_validation_negative_max_chars raiseProv "ab".toList 3 (-1)
    (by decide)).1).trans (by decide)

/-- C8 counterexample: _chunk_text of the empty string at maxChars 100
returns the one-element list containing the empty string, not an empty
list of chunks. -/
theorem chunk_text_empty_counterexample :
    chunkText ([] : Str) 100 = .ok [[]] ∧
    chunkText ([] : Str) 100 ≠ .ok ([] : List Str) := by
  decide

/-- C8 (amended): for every maxChars ≥ 0 the empty string falls into the
passthrough branch and _chunk_text returns the single-element list
containing the empty string (translate_text itself never reaches chunking
on empty input because of its own early return). -/
theorem chunk_text_empty_passthrough (maxChars : Int) (h : 0 ≤ maxChars) :
    chunkText ([] : Str) maxChars = .ok [[]] := by
  have h0 : ((List.length ([] : Str) : Int)) ≤ maxChars := by simpa using h
  simpa using chunkText_small h0

/-- C8 witness: the empty string chunked at maxChars 7. -/
theorem chunk_text_empty_passthrough_witness :
    chunkText ([] : Str) 7 = .ok [[]] :=
  chunk_text_empty_passthrough 7 (by decide)

/-- C10: a language string that is empty or lowercases to auto is
normalized to auto for every catalog mapping (so without consulting the
catalog), and the constructor maps empty source and target strings to the
auto pair. -/
theorem normalize_lang_auto (mapping : List (Str × Str)) (lang : Str)
    (h : lang = [] ∨ pyLower lang = strAuto) :
    normalizeLang mapping lang = strAuto ∧
    translatorInit mapping [] [] = (strAuto, strAuto) := by
  constructor
  · rcases h with h | h
    · simp [normalizeLang, h]
    · by_cases he : lang = []
      · simp [normalizeLang, he]
      · simp [normalizeLang, he, h]
  · simp [translatorInit, normalizeLang]

/-- C10 witness: the mixed-case string AuTo normalizes to auto against a
nonempty catalog, and the empty-empty constructor pair is auto-auto. -/
theorem normalize_lang_auto_witness :
    normalizeLang [("english".toList, "en".toList)] "AuTo".toList = strAuto ∧
    translatorInit [("english".toList, "en".toList)] [] [] =
      (strAuto, strAuto) :=
  normalize_lang_auto [("english".toList, "en".toList)] "AuTo".toList
    (Or.inr (by decide))

/-- Line loop under a pure total provider with a positive maxChars: the
run succeeds and both the produced output and the produced log suffix are
independent of the starting log and accumulator. -/
theorem translateLines_pureOk (f : Str → Str) {maxChars : Int}
    (h1 : 1 ≤ maxChars) (retries : Int) :
    ∀ lines : List Str, ∃ out Δ, ∀ (log : List Str) (acc : Str),
      translateLines (pureOk f) lines maxChars retries log acc =
        (.ok (acc ++ out), log ++ Δ) := by
  intro lines
  induction lines with
  | nil => exact ⟨[], [], by intro log acc; simp [translateLines]⟩
  | cons line rest ih =>
    obtain ⟨out, Δ, hIH⟩ := ih
    by_cases hb : pyStrip line = []
    · exact ⟨line ++ out, Δ, by
        intro log acc
        simp [translateLines, hb, hIH, List.append_assoc]⟩
    · obtain ⟨cs, hcs⟩ := chunkText_ok h1 line
      exact ⟨(cs.map f).flatten ++ out, cs ++ Δ, by
        intro log acc
        simp [translateLines, hb, hcs, translateChunks_pureOk, hIH,
          List.append_assoc]⟩

/-- translate_text under a pure total provider with positive maxChars
succeeds and appends a log suffix independent of the starting log. -/
theorem translateTextFrom_pureOk (f : Str → Str) (pf : Bool) {maxChars : Int}
    (h1 : 1 ≤ maxChars) (retries : Int) (t : Str) :
    ∃ out Δ, ∀ log : List Str,
      translateTextFrom (pureOk f) log t pf maxChars retries =
        (.ok out, log ++ Δ) := by
  by_cases ht : t = []
  · exact ⟨[], [], by intro log; simp [translateTextFrom, ht]⟩
  · cases pf with
    | false =>
      exact ⟨f t, [t], by
        intro log
        simp [translateTextFrom, ht, retryTranslate, retryGo_pureOk]⟩
    | true =>
      obtain ⟨out, Δ, hL⟩ := translateLines_pureOk f h1 retries (pySplitlines t)
      exact ⟨out, Δ, by
        intro log
        simp [translateTextFrom, ht, hL]⟩

/-- Batch loop under a pure total provider: the outputs already collected
are extended by one in-order result per remaining item. -/
theorem translateBatchGo_pureOk (f : Str → Str) (pf : Bool) {maxChars : Int}
    (h1 : 1 ≤ maxChars) (retries : Int) :
    ∀ (items log outs : List Str),
      (translateBatchGo (pureOk f) items pf maxChars retries log outs).1 =
        .ok (outs ++ items.map (fun t =>
          (translateText (pureOk f) t pf maxChars retries).1.toOption.getD [])) := by
  intro items
  induction items with
  | nil => intro log outs; simp [translateBatchGo]
  | cons t rest ih =>
    intro log outs
    obtain ⟨out, Δ, hT⟩ := translateTextFrom_pureOk f pf h1 retries t
    have hg :
        (translateText (pureOk f) t pf maxChars retries).1.toOption.getD []
          = out := by
      simp [translateText, hT [], Except.toOption]
    simp [translateBatchGo, hT log, ih, hg, List.append_assoc]

/-- C9 counterexample: with a provider that always fails and retries 0, a
batch of two items aborts on the first failing item: the endpoint returns
a single error for the whole batch, no per-item results, and the second
item is never translated (the provider-call log holds only the first
item's text). -/
theorem translate_batch_failure_aborts :
    translateBatch raiseProv ["a".toList, "b".toList] true 5 0 =
      (.error (.providerErr 0), ["a".toList]) := by
  decide

/-- C9 (amended): when every item succeeds (a pure total provider and a
positive maxChars), translate_batch returns one result per request in
input order; but the whole batch loop runs inside one try/except, so one
item's failure aborts the batch and the remaining items are not
processed. -/
theorem translate_batch_order_on_success (f : Str → Str) (items : List Str)
    (pf : Bool) (maxChars retries : Int) (h1 : 1 ≤ maxChars) :
    (translateBatch (pureOk f) items pf maxChars retries).1 =
      .ok (items.map (fun t =>
        (translateText (pureOk f) t pf maxChars retries).1.toOption.getD [])) := by
  have h := translateBatchGo_pureOk f pf h1 retries items [] []
  simpa [translateBatch] using h

/-- C9 witness: a two-item batch under the identity provider returns both
items in order. -/
theorem translate_batch_order_on_success_witness :
    (translateBatch (pureOk (fun s => s)) ["a".toList, "b".toList]
      true 5 0).1 = .ok ["a".toList, "b".toList] :=
  (translate_batch_order_on_success (fun s => s) ["a".toList, "b".toList]
    true 5 0 (by decide)).trans (by decide)

/-- The sentence splitter leaves a text without any whitespace whole. -/
theorem reSentGo_noSpace :
    ∀ (s acc : List Char), (∀ c ∈ s, pyIsSpace c = false) →
      reSentGo s acc false = [acc.reverse ++ s] := by
  intro s
  induction s with
  | nil => intro acc _; simp [reSentGo]
  | cons c rest ih =>
    intro acc h
    have hc : pyIsSpace c = false := h c (by simp)
    have hrest : ∀ x ∈ rest, pyIsSpace x = false :=
      fun x hx => h x (by simp [hx])
    simp [reSentGo, hc, ih (c :: acc) hrest, List.append_assoc]

/-- Splitting on single spaces a space-free token followed by one space
gives the token and one trailing empty field, as Python split does. -/
theorem pySplitSpaceGo_noSpace :
    ∀ (s acc : List Char), (∀ c ∈ s, ¬ c = ' ') →
      pySplitSpaceGo (s ++ [' ']) acc = [acc.reverse ++ s, []] := by
  intro s
  induction s with
  | nil => intro acc _; simp [pySplitSpaceGo]
  | cons c rest ih =>
    intro acc h
    have hc : ¬ c = ' ' := h c (by simp)
    have hrest : ∀ x ∈ rest, ¬ x = ' ' := fun x hx => h x (by simp [hx])
    simp [pySplitSpaceGo, hc, ih (c :: acc) hrest, List.append_assoc]

/-- A range whose start is already past the stop is empty, whatever the
fuel. -/
theorem rangeGo_stop {i stop : Nat} (step fuel : Nat) (h : ¬ i < stop) :
    rangeGo i stop step fuel = [] := by
  cases fuel <;> simp [rangeGo, h]

/-- Shifting start and stop together shifts every element of the range. -/
theorem rangeGo_shift (step d : Nat) :
    ∀ (fuel i stop : Nat),
      rangeGo (i + d) (stop + d) step fuel =
        (rangeGo i stop step fuel).map (fun x => x + d) := by
  intro fuel
  induction fuel with
  | zero => intro i stop; simp [rangeGo]
  | succ fuel ih =>
    intro i stop
    by_cases h : i < stop
    · have h2 : i + d < stop + d := by omega
      have h3 : i + d + step = i + step + d := by omega
      simp [rangeGo, h, h2, h3, ih]
    · have h2 : ¬ (i + d < stop + d) := by omega
      simp [rangeGo, h, h2]

/-- The hard-cut slice loop on n whole blocks of k copies of a character
followed by a nonempty remainder of at most k characters yields the n
blocks and then the remainder. -/
theorem slices_replicate (k : Nat) (c : Char) (r : List Char)
    (hk : 1 ≤ k) (hr1 : 1 ≤ r.length) (hrk : r.length ≤ k) :
    ∀ (n fuel : Nat), n + 1 ≤ fuel →
      (rangeGo 0 (n * k + r.length) k fuel).map
        (fun i => ((List.replicate (n * k) c ++ r).drop i).take k) =
        List.replicate n (List.replicate k c) ++ [r] := by
  intro n
  induction n with
  | zero =>
    intro fuel hf
    match fuel, hf with
    | fuel + 1, _ =>
      have h0 : 0 < 0 * k + r.length := by simp; omega
      have hstop : ¬ (0 + k < 0 * k + r.length) := by simp; omega
      simp only [rangeGo, if_pos h0, rangeGo_stop k fuel hstop]
      simp [List.take_of_length_le hrk]
  | succ n ih =>
    intro fuel hf
    match fuel, hf with
    | fuel + 1, hf =>
      have hfe : n + 1 ≤ fuel := by omega
      have hmul : (n + 1) * k = k + n * k := by ring
      rw [hmul]
      have h0 : 0 < k + n * k + r.length := by omega
      have hst : k + n * k + r.length = (n * k + r.length) + k := by omega
      simp only [rangeGo, if_pos h0]
      rw [hst, show (0 + k) = (0 + k) from rfl]
      rw [rangeGo_shift k k fuel 0 (n * k + r.length)]
      rw [List.replicate_add, List.append_assoc]
      rw [List.map_cons, List.map_map]
      have hhead :
          ((List.replicate k c ++ (List.replicate (n * k) c ++ r)).drop 0).take k
            = List.replicate k c := by
        rw [List.drop_zero]
        rw [List.take_append_of_le_length (by simp)]
        simp
      have htail :
          (rangeGo 0 (n * k + r.length) k fuel).map
            ((fun i =>
              ((List.replicate k c ++ (List.replicate (n * k) c ++ r)).drop i).take k)
             ∘ (fun x => x + k)) =
          List.replicate n (List.replicate k c) ++ [r] := by
        rw [List.map_congr_left (g :=
          fun i => ((List.replicate (n * k) c ++ r).drop i).take k)]
        · exact ih fuel hfe
        · intro i _
          have : i + k = (List.replicate k c).length + i := by simp; omega
          simp only [Function.comp_apply, this, List.drop_append]
      rw [hhead, htail]
      simp [List.replicate_succ]

/-- Appending the separator space always leaves a nonempty sentence. -/
theorem sentWithSpace_ne_nil (s : Str) : sentWithSpace s ≠ [] := by
  rw [sentWithSpace]
  by_cases h : s.getLast? = some '\n'
  · rw [if_pos h]
    intro he
    subst he
    simp at h
  · rw [if_neg h]
    simp

/-- The sentence pass on a single sentence packs it with its separator
space. -/
theorem pass1Go_single (s : Str) (maxChars : Int) :
    pass1Go [s] maxChars [] [] = [sentWithSpace s] := by
  simp [pass1Go, sentWithSpace_ne_nil s]

/-- The word pass on a single oversized chunk hands it to the word
repacker. -/
theorem pass2Go_single_long (ch : Str) (maxChars : Int)
    (h : ¬ ((ch.length : Int) ≤ maxChars)) :
    pass2Go [ch] maxChars [] = wordPackGo (pySplitSpace ch) maxChars [] [] := by
  simp [pass2Go, h]

/-- The word repacker on one long word followed by the empty trailing
field: the word with its space does not fit together with the second
separator space, so both become chunks of their own. -/
theorem wordPackGo_longWord (w : Str) (maxChars : Int)
    (h : ¬ (((w ++ [' ']).length : Int) + ((([] : Str) ++ [' ']).length : Int)
      ≤ maxChars)) :
    wordPackGo [w, []] maxChars [] [] = [w ++ [' '], [' ']] := by
  have hne : w ++ [' '] ≠ [] := by simp
  simp [wordPackGo, hne, h]
  simp only [List.length_append, List.length_cons, List.length_nil,
    List.nil_append] at h
  omega

/-- The hard-cut pass on an oversized chunk followed by a fitting one. -/
theorem pass3Go_pair (ch₁ ch₂ : Str) (maxChars : Int)
    (h1 : ¬ ((ch₁.length : Int) ≤ maxChars)) (h0 : ¬ maxChars = 0)
    (h2 : (ch₂.length : Int) ≤ maxChars) :
    pass3Go [ch₁, ch₂] maxChars [] =
      .ok (hardSlices ch₁ maxChars ++ [ch₂]) := by
  simp [pass3Go, h1, h0, h2]

/-- The full chunking of the 5000-character space-free token at
maxChars 100: 50 hard-cut blocks of 100 characters and then the two
single-space chunks left behind by the sentence and word passes. -/
theorem chunkText_token5000 :
    chunkText (List.replicate 5000 'a') 100 =
      .ok (List.replicate 50 (List.replicate 100 'a') ++ [[' '], [' ']]) := by
  have hnospace : ∀ c ∈ List.replicate 5000 'a', pyIsSpace c = false := by
    intro c hc
    rw [List.eq_of_mem_replicate hc]
    decide
  have hnosp2 : ∀ c ∈ List.replicate 5000 'a', ¬ c = ' ' := by
    intro c hc
    rw [List.eq_of_mem_replicate hc]
    decide
  have hsent : reSentSplit (List.replicate 5000 'a') =
      [List.replicate 5000 'a'] := by
    have h := reSentGo_noSpace (List.replicate 5000 'a') [] hnospace
    simp only [List.reverse_nil, List.nil_append] at h
    exact h
  have hlast : (List.replicate 5000 'a').getLast? = some 'a' := by
    rw [show (5000 : Nat) = 4999 + 1 from rfl, List.replicate_succ']
    exact List.getLast?_concat _
  have hsws : sentWithSpace (List.replicate 5000 'a') =
      List.replicate 5000 'a' ++ [' '] := by
    rw [sentWithSpace, hlast]
    rw [if_neg (by decide : ¬ (some 'a' = some '\n'))]
  have hlen : (List.replicate 5000 'a' ++ [' ']).length = 5001 := by
    rw [List.length_append, List.length_replicate]
    rfl
  have hlong : ¬ (((List.replicate 5000 'a' ++ [' ']).length : Int) ≤ 100) := by
    rw [hlen]; norm_num
  have hp1 : pass1Go [List.replicate 5000 'a'] 100 [] [] =
      [List.replicate 5000 'a' ++ [' ']] := by
    rw [pass1Go_single, hsws]
  have hsplit : pySplitSpace (List.replicate 5000 'a' ++ [' ']) =
      [List.replicate 5000 'a', []] := by
    have h := pySplitSpaceGo_noSpace (List.replicate 5000 'a') [] hnosp2
    simp only [List.reverse_nil, List.nil_append] at h
    exact h
  have hp2 : pass2Go [List.replicate 5000 'a' ++ [' ']] 100 [] =
      [List.replicate 5000 'a' ++ [' '], [' ']] := by
    rw [pass2Go_single_long _ _ hlong, hsplit]
    rw [wordPackGo_longWord]
    rw [List.length_append, List.length_replicate, List.nil_append]
    norm_num
  have hslices : hardSlices (List.replicate 5000 'a' ++ [' ']) 100 =
      List.replicate 50 (List.replicate 100 'a') ++ [[' ']] := by
    have h := slices_replicate 100 'a' [' '] (by norm_num) (by norm_num)
      (by norm_num) 50 5001 (by norm_num)
    have e1 : (50 * 100 + ([' '] : Str).length) = 5001 := by norm_num
    have e2 : List.replicate (50 * 100) 'a' = List.replicate 5000 'a' := by
      norm_num
    rw [e1, e2] at h
    rw [hardSlices, if_neg (by norm_num : ¬ ((100 : Int) < 0))]
    rw [hlen]
    exact h
  have hp3 : pass3Go [List.replicate 5000 'a' ++ [' '], [' ']] 100 [] =
      .ok (List.replicate 50 (List.replicate 100 'a') ++ [[' '], [' ']]) := by
    rw [pass3Go_pair _ _ _ hlong (by norm_num)
      (by norm_num : ((([' '] : Str).length : Int) ≤ 100))]
    rw [hslices, List.append_assoc]
    rfl
  have hbig : ¬ (((List.replicate 5000 'a').length : Int) ≤ 100) := by
    rw [List.length_replicate]; norm_num
  rw [chunkText, if_neg hbig, hsent, hp1, hp2, hp3]

/-- C7 counterexample: the 5000-character space-free token at maxChars
100 produces 52 chunks, not 50. -/
theorem chunk_token5000_not_fifty :
    (chunksOf (List.replicate 5000 'a') 100).length ≠ 50 := by
  have h : chunksOf (List.replicate 5000 'a') 100 =
      List.replicate 50 (List.replicate 100 'a') ++ [[' '], [' ']] := by
    rw [chunksOf, chunkText_token5000]
    rfl
  rw [h, List.length_append, List.length_replicate]
  norm_num

/-- C7 (amended): for the single space-free token of length 5000 and
maxChars 100, _chunk_text returns 52 chunks: the 50 hard-cut blocks of
exactly 100 characters covering the token, followed by two single-space
chunks of length 1 introduced by the separator spaces of the sentence and
word passes. -/
theorem chunk_token5000_value :
    chunkText (List.replicate 5000 'a') 100 =
      .ok (List.replicate 50 (List.replicate 100 'a') ++ [[' '], [' ']]) :=
  chunkText_token5000

end EnviTranslator
